import Mathlib

/-! ExpenseTracker, `site/helpers.go`.

A shallow embedding of the path-parsing, list and page-rendering helpers of
`site/helpers.go`, followed by the properties proved about them.

Modelling conventions:

* A Go `string` is an immutable sequence of bytes, so it is embedded as `List UInt8`.
  `str` turns a source literal into its UTF-8 bytes, as the Go compiler does.
* A Go slice `[]T` is embedded as `List T`; only slice *values* are modelled, not aliasing.
* Go `int` values that are only compared or used as indices are embedded as `Int`.
* Operations that can panic at run time (indexing, slicing) return `Except GoPanic _`;
  functions that use them are written in explicit error-passing style.
* The two standard-library functions the file calls, `strings.Split` and `strings.Index`,
  are always called with a one-byte separator (`"/"`, `"?"`); they are embedded for that case.
* The template library and the session store are collaborators: `html/template` is a
  parameter (`TemplateEngine`), the request context a record of the members the file uses.
-/

namespace ExpenseTracker

/-! ## Data model -/

/-- A Go string: a finite sequence of bytes. -/
abbrev GoString := List UInt8

/-- The UTF-8 bytes of a literal, i.e. what Go stores for the string literal `s`. -/
def str (s : String) : GoString := s.toList.flatMap String.utf8EncodeChar

/-- The byte `'/'`. -/
def slash : UInt8 := 47

/-- The byte `'?'`. -/
def questionMark : UInt8 := 63

/-- Run-time panics that the modelled code could raise. -/
inductive GoPanic where
  | indexOutOfRange
  | sliceBoundsOutOfRange
  deriving DecidableEq, Repr

deriving instance DecidableEq for Except

/-- Go `len(l)`, an `int`. -/
def goLen {α : Type} (l : List α) : Int := (l.length : Int)

/-- Go `l[i]`: panics unless `0 ≤ i < len(l)`. -/
def goIndex {α : Type} (l : List α) (i : Int) : Except GoPanic α :=
  if i < 0 then .error .indexOutOfRange
  else
    match l.get? i.toNat with
    | some x => .ok x
    | none => .error .indexOutOfRange

/-- Go `l[:j]`: panics unless `0 ≤ j ≤ len(l)`. -/
def goSliceTo {α : Type} (l : List α) (j : Int) : Except GoPanic (List α) :=
  if j < 0 ∨ goLen l < j then .error .sliceBoundsOutOfRange
  else .ok (l.take j.toNat)

/-! ## Standard-library functions used by the file -/

/-- Go `strings.Split(s, sep)` for a one-byte separator `sep`: the substrings of `s` between
consecutive occurrences of `sep`, in order. The result always has
`1 + (number of occurrences of sep)` elements; `strings.Split("", sep)` is `[""]`. -/
def stringsSplit (s : GoString) (sep : UInt8) : List GoString :=
  match s with
  | [] => [[]]
  | c :: cs =>
    if c = sep then [] :: stringsSplit cs sep
    else
      match stringsSplit cs sep with
      | [] => [[c]]
      | h :: t => (c :: h) :: t

/-- Go `strings.Index(s, substr)` for a one-byte `substr`: the index of the first occurrence of
the byte in `s`, or `-1` when it does not occur. -/
def stringsIndex (s : GoString) (c : UInt8) : Int :=
  match s with
  | [] => -1
  | x :: xs =>
    if x = c then 0
    else
      let r := stringsIndex xs c
      if r = -1 then -1 else r + 1

/-! ## `helpers.go` -/

/-- Source: `intInList`: the loop visits `list[0]`, `list[1]`, ... in order and returns `true`
at the first element equal to `value`, `false` when the index reaches `len(list)`. -/
def intInList (value : Int) (list : List Int) : Bool :=
  match list with
  | [] => false
  | x :: rest => if value = x then true else intInList value rest

/-- Source: `strInList`: the loop visits `list[0]`, `list[1]`, ... in order and returns `true`
at the first element equal to `value`, `false` when the index reaches `len(list)`. -/
def strInList (value : GoString) (list : List GoString) : Bool :=
  match list with
  | [] => false
  | x :: rest => if value = x then true else strInList value rest

/-- Source: `filterStrings`: start from the empty slice `rl`, walk `l` left to right and
append to `rl` every `v` with `f(v)`. -/
def filterStrings (l : List GoString) (f : GoString → Bool) : List GoString :=
  l.foldl (fun rl v => if f v then rl ++ [v] else rl) []

/-- Source: `denullStrList`: `filterStrings` with the predicate `v != ""`. -/
def denullStrList (l : List GoString) : List GoString :=
  filterStrings l (fun v => v != [])

/-- Source: `splitPathRoutes`: `denullStrList(strings.Split(path, "/"))`. -/
def splitPathRoutes (path : GoString) : List GoString :=
  denullStrList (stringsSplit path slash)

/-- Source: `getLastPathRoute`. -/
def getLastPathRoute (path : GoString) : Except GoPanic GoString :=
  let routes := splitPathRoutes path
  if goLen routes = 0 then .ok []
  else
    (goIndex routes (goLen routes - 1)).bind fun lastRoute =>
      let queryIndex := stringsIndex lastRoute questionMark
      if queryIndex = -1 then .ok lastRoute
      else goSliceTo lastRoute queryIndex

/-- Source: `getPathRoutes`. -/
def getPathRoutes (path : GoString) : Except GoPanic (List GoString) :=
  let routes := splitPathRoutes path
  if goLen routes = 0 then .ok routes
  else
    (getLastPathRoute path).bind fun lastRoute =>
      (goSliceTo routes (goLen routes - 1)).bind fun front =>
        .ok (front ++ [lastRoute])

/-- Go `l[i:]`: panics unless `0 ≤ i ≤ len(l)`. -/
def goSliceFrom {α : Type} (l : List α) (i : Int) : Except GoPanic (List α) :=
  if i < 0 ∨ goLen l < i then .error .sliceBoundsOutOfRange
  else .ok (l.drop i.toNat)

/-- Source: `removeLeadingSlash`. -/
def removeLeadingSlash (s : GoString) : Except GoPanic GoString :=
  if goLen s = 0 then .ok s
  else
    (goIndex s 0).bind fun c =>
      if c = slash then goSliceFrom s 1
      else .ok s

/-- Source: `firstOrDefault`. -/
def firstOrDefault (l : List GoString) : Except GoPanic GoString :=
  if goLen l = 0 then .ok []
  else goIndex l 0

/-- The byte `'"'`. -/
def quote : UInt8 := 34

/-- Source: the loop `for i := 0; i < len(l)-1; i++` of `strListToStr`, which writes
`"\"" + l[i] + "\", "` to the buffer at each iteration. The bound `len(l)-1` does not change
during the loop, so the recursion is on the number of iterations that are left; `i` is the
loop index and `buffer` the bytes written so far. -/
def strListToStrLoop (l : List GoString) : Nat → Int → GoString → Except GoPanic GoString
  | 0, _, buffer => .ok buffer
  | n + 1, i, buffer =>
    (goIndex l i).bind fun v =>
      strListToStrLoop l n (i + 1) (buffer ++ (str "\"" ++ v ++ str "\", "))

/-- Source: `strListToStr`. The loop runs for `i = 0, ..., len(l)-2`, that is `len(l)-1`
times. -/
def strListToStr (l : List GoString) : Except GoPanic GoString :=
  if goLen l = 0 then .ok (str "[]")
  else
    (strListToStrLoop l (goLen l - 1).toNat 0 (str "[")).bind fun buffer =>
      (goIndex l (goLen l - 1)).bind fun last =>
        .ok (buffer ++ (str "\"" ++ last ++ str "\"]"))

/-- Checks whether two consecutive double-quote bytes occur in `s`. -/
def adjacentQuotes : GoString → Bool
  | a :: b :: rest => (a == quote && b == quote) || adjacentQuotes (b :: rest)
  | _ => false

/-! ### Page rendering

The session store and the template library are collaborators of this file. Go `error` values
are an abstract type `ε`; values of static type `interface{}` passed to templates are an
abstract type `δ`. -/

/-- Modelled from the spec: the record `HeaderData`, whose declaration is not in this file;
`makeHtmlWithHeader` sets its two fields `IsUserLoggedIn` and `DisplayName`
(spec: HeaderContext, `{isLoggedIn: bool, displayName: string}`). -/
structure HeaderData where
  IsUserLoggedIn : Bool
  DisplayName : GoString
  deriving DecidableEq, Repr

/-- Modelled from the spec: the record returned by `ctx.getUser`, whose declaration is not in
this file; it exposes at least `DisplayName`, the only field read here. -/
structure User where
  DisplayName : GoString
  deriving DecidableEq, Repr

/-- Modelled from the spec: the part of `RequestContext` that this file calls into, whose
declaration is not in this file: the field `userId`, the result of `ctx.isUserLoggedIn()`
and the lookup `ctx.getUser(id)`, which returns a user or an error. -/
structure RequestContext (ι ε : Type) where
  userId : ι
  isUserLoggedIn : Bool
  getUser : ι → Except ε User

/-- A value handed to `Template.Execute` as `data interface{}`: the header record or any
other value. -/
inductive TemplateData (δ : Type) where
  | headerData (h : HeaderData)
  | value (d : δ)

/-- The two operations of `html/template` that the file uses. `parseFiles loc` is
`template.ParseFiles(loc)`, a template or an error. `execute t data` is
`t.Execute(&buf, data)` on an empty buffer: the bytes written to the buffer and the returned
error (`none` for `nil`). -/
structure TemplateEngine (τ δ ε : Type) where
  parseFiles : GoString → Except ε τ
  execute : τ → TemplateData δ → GoString × Option ε

/-- A panic raised by `template.Must`, carrying the error it was given. -/
inductive MustPanic (ε : Type) where
  | must (err : ε)
  deriving DecidableEq, Repr

/-- Go `template.Must(t, err)`: returns `t` when `err` is `nil` and panics with `err`
otherwise. -/
def templateMust {τ ε : Type} (r : Except ε τ) : Except (MustPanic ε) τ :=
  match r with
  | .ok t => .ok t
  | .error err => .error (.must err)

/-- Source: `getUserDisplayName`. -/
def getUserDisplayName {ι ε : Type} (ctx : RequestContext ι ε) : GoString :=
  if !ctx.isUserLoggedIn then []
  else
    match ctx.getUser ctx.userId with
    | .error _ => []
    | .ok user => user.DisplayName

/-- Source: `makeHtml`. The result is the returned pair `(string, error)`, or the panic of
`template.Must`. -/
def makeHtml {τ δ ε : Type} (lib : TemplateEngine τ δ ε) (templateLocation : GoString)
    (data : TemplateData δ) : Except (MustPanic ε) (GoString × Option ε) :=
  (templateMust (lib.parseFiles templateLocation)).bind fun t =>
    match lib.execute t data with
    | (_, some err) => .ok ([], some err)
    | (templateBytes, none) => .ok (templateBytes, none)

/-- Source: the value `headerData` that `makeHtmlWithHeader` builds from the request
context. -/
def makeHtmlWithHeader_headerData {ι ε : Type} (ctx : RequestContext ι ε) : HeaderData :=
  { IsUserLoggedIn := ctx.isUserLoggedIn
    DisplayName := getUserDisplayName ctx }

/-- Source: `makeHtmlWithHeader`. The result is the returned pair `(string, error)`, or the
panic of `template.Must`. -/
def makeHtmlWithHeader {τ δ ι ε : Type} (lib : TemplateEngine τ δ ε)
    (ctx : RequestContext ι ε) (templateLocation : GoString) (data : TemplateData δ) :
    Except (MustPanic ε) (GoString × Option ε) :=
  (templateMust (lib.parseFiles (str "../templates/header.template"))).bind fun t =>
    let headerData := makeHtmlWithHeader_headerData ctx
    match lib.execute t (.headerData headerData) with
    | (_, some err) => .ok ([], some err)
    | (templateBytes, none) =>
      (makeHtml lib templateLocation data).bind fun r =>
        match r with
        | (_, some err) => .ok ([], some err)
        | (rest, none) => .ok (templateBytes ++ rest, none)

/-! ### Example collaborators, used to evaluate the rendering functions

Templates are identified with their location, errors are strings. -/

/-- A template library in which no template file can be found. -/
def noTemplates : TemplateEngine GoString Unit GoString where
  parseFiles := fun _ => .error (str "open: no such file or directory")
  execute := fun t _ => (t, none)

/-- A template library in which every file parses and every template writes its own location
when executed, except that executing the header template fails after writing `"<head"`. -/
def headerFails : TemplateEngine GoString Unit GoString where
  parseFiles := fun loc => if loc = str "missing.template" then .error (str "open") else .ok loc
  execute := fun t _ =>
    if t = str "../templates/header.template" then (str "<head", some (str "no field"))
    else (t, none)

/-- A template library in which every file parses; the header template writes `"<in>"` or
`"<out>"` according to `IsUserLoggedIn` followed by the display name, and executing any other
template succeeds and writes its location, except `"bad.template"`, whose execution fails. -/
def echoTemplates : TemplateEngine GoString Unit GoString where
  parseFiles := fun loc => .ok loc
  execute := fun t data =>
    match data with
    | .headerData h => ((if h.IsUserLoggedIn then str "<in>" else str "<out>") ++ h.DisplayName, none)
    | .value _ => if t = str "bad.template" then (str "par", some (str "exec")) else (t, none)

/-- A template library in which the header template parses and writes `"<h>"`, the file
`"missing.template"` cannot be found, and every other template parses and writes its own
location. -/
def bodyMissing : TemplateEngine GoString Unit GoString where
  parseFiles := fun loc => if loc = str "missing.template" then .error (str "open") else .ok loc
  execute := fun t _ =>
    if t = str "../templates/header.template" then (str "<h>", none)
    else (t, none)

/-- A session that is logged in as the user `"ann"`. -/
def loggedInAnn : RequestContext Int GoString where
  userId := 7
  isUserLoggedIn := true
  getUser := fun _ => .ok { DisplayName := str "ann" }

/-- A session that is not logged in; its lookup would fail. -/
def anonymous : RequestContext Int GoString where
  userId := 0
  isUserLoggedIn := false
  getUser := fun _ => .error (str "no user")

/-! ## Auxiliary lemmas -/

theorem filterStrings_foldl (f : GoString → Bool) (l acc : List GoString) :
    l.foldl (fun rl v => if f v then rl ++ [v] else rl) acc = acc ++ l.filter f := by
  induction l generalizing acc with
  | nil => simp
  | cons v vs ih =>
    by_cases h : f v = true
    · simp [List.foldl_cons, List.filter_cons, h, ih]
    · simp [List.foldl_cons, List.filter_cons, h, ih]

theorem filterStrings_eq (l : List GoString) (f : GoString → Bool) :
    filterStrings l f = l.filter f := by
  simp [filterStrings, filterStrings_foldl]

theorem denullStrList_eq (l : List GoString) :
    denullStrList l = l.filter (fun v => v != []) :=
  filterStrings_eq l _

theorem splitPathRoutes_eq (p : GoString) :
    splitPathRoutes p = (stringsSplit p slash).filter (fun v => v != []) :=
  denullStrList_eq _

/-! ### `strings.Split` -/

theorem stringsSplit_ne_nil (s : GoString) (sep : UInt8) : stringsSplit s sep ≠ [] := by
  induction s with
  | nil => simp [stringsSplit]
  | cons c cs ih =>
    unfold stringsSplit
    split
    · simp
    · split <;> simp

theorem stringsSplit_cons_sep (cs : GoString) (sep : UInt8) :
    stringsSplit (sep :: cs) sep = [] :: stringsSplit cs sep := by
  simp [stringsSplit]

theorem stringsSplit_cons_ne (c : UInt8) (cs : GoString) (sep : UInt8) (h : c ≠ sep)
    (hd : GoString) (tl : List GoString) (hs : stringsSplit cs sep = hd :: tl) :
    stringsSplit (c :: cs) sep = (c :: hd) :: tl := by
  rw [stringsSplit, if_neg h, hs]

theorem stringsSplit_append (p q : GoString) (sep : UInt8) :
    stringsSplit (p ++ sep :: q) sep = stringsSplit p sep ++ stringsSplit q sep := by
  induction p with
  | nil => simp [stringsSplit]
  | cons c cs ih =>
    by_cases h : c = sep
    · subst h
      simp [stringsSplit_cons_sep, ih]
    · obtain ⟨hd, tl, hs⟩ := List.exists_cons_of_ne_nil (stringsSplit_ne_nil cs sep)
      have h1 : stringsSplit (cs ++ sep :: q) sep = hd :: (tl ++ stringsSplit q sep) := by
        rw [ih, hs]; rfl
      rw [List.cons_append, stringsSplit_cons_ne c _ sep h _ _ h1,
        stringsSplit_cons_ne c _ sep h _ _ hs]
      rfl

theorem stringsSplit_of_not_mem (s : GoString) (sep : UInt8) (h : sep ∉ s) :
    stringsSplit s sep = [s] := by
  induction s with
  | nil => rfl
  | cons c cs ih =>
    have hc : c ≠ sep := fun e => h (by simp [e])
    have hcs : sep ∉ cs := fun e => h (List.mem_cons_of_mem _ e)
    exact stringsSplit_cons_ne c cs sep hc cs [] (ih hcs)

/-! ### `splitPathRoutes` -/

theorem splitPathRoutes_append (p q : GoString) :
    splitPathRoutes (p ++ slash :: q) = splitPathRoutes p ++ splitPathRoutes q := by
  simp [splitPathRoutes_eq, stringsSplit_append]

theorem splitPathRoutes_nil : splitPathRoutes [] = [] := by decide

theorem splitPathRoutes_cons_slash (p : GoString) :
    splitPathRoutes (slash :: p) = splitPathRoutes p := by
  have h := splitPathRoutes_append [] p
  simpa [splitPathRoutes_nil] using h

theorem splitPathRoutes_append_slash (p : GoString) :
    splitPathRoutes (p ++ [slash]) = splitPathRoutes p := by
  have h := splitPathRoutes_append p []
  simpa [splitPathRoutes_nil] using h

theorem splitPathRoutes_single (x : GoString) (hne : x ≠ []) (hs : slash ∉ x) :
    splitPathRoutes x = [x] := by
  simp [splitPathRoutes_eq, stringsSplit_of_not_mem x slash hs, hne]

theorem splitPathRoutes_intercalate (xs : List GoString)
    (h : ∀ x ∈ xs, x ≠ [] ∧ slash ∉ x) :
    splitPathRoutes (List.intercalate [slash] xs) = xs := by
  induction xs with
  | nil => decide
  | cons x rest ih =>
    have hx := h x (List.mem_cons_self _ _)
    have hrest : ∀ y ∈ rest, y ≠ [] ∧ slash ∉ y :=
      fun y hy => h y (List.mem_cons_of_mem _ hy)
    cases rest with
    | nil => simpa [List.intercalate, List.intersperse] using splitPathRoutes_single x hx.1 hx.2
    | cons y ys =>
      have e : List.intercalate [slash] (x :: y :: ys)
          = x ++ slash :: List.intercalate [slash] (y :: ys) := by
        simp [List.intercalate, List.intersperse]
      rw [e, splitPathRoutes_append, splitPathRoutes_single x hx.1 hx.2, ih hrest]
      rfl

theorem splitPathRoutes_not_mem_nil (p : GoString) : ([] : GoString) ∉ splitPathRoutes p := by
  simp [splitPathRoutes_eq]

/-! ### `strings.Index` -/

theorem stringsIndex_ge (s : GoString) (c : UInt8) : -1 ≤ stringsIndex s c := by
  induction s with
  | nil => simp [stringsIndex]
  | cons x xs ih =>
    unfold stringsIndex
    by_cases h : x = c
    · simp [h]
    · simp only [if_neg h]
      split <;> omega

theorem stringsIndex_of_not_mem (s : GoString) (c : UInt8) (h : c ∉ s) :
    stringsIndex s c = -1 := by
  induction s with
  | nil => simp [stringsIndex]
  | cons x xs ih =>
    have hx : x ≠ c := fun e => h (by simp [e])
    have hxs : c ∉ xs := fun e => h (List.mem_cons_of_mem _ e)
    simp [stringsIndex, hx, ih hxs]

theorem stringsIndex_append (pre post : GoString) (c : UInt8) (h : c ∉ pre) :
    stringsIndex (pre ++ c :: post) c = (pre.length : Int) := by
  induction pre with
  | nil => simp [stringsIndex]
  | cons x xs ih =>
    have hx : x ≠ c := fun e => h (by simp [e])
    have hxs : c ∉ xs := fun e => h (List.mem_cons_of_mem _ e)
    have e := ih hxs
    have hi : ¬ ((xs.length : Int) = -1) := by omega
    rw [List.cons_append, stringsIndex, if_neg hx]
    simp only [e, if_neg hi, List.length_cons]
    push_cast
    rfl

theorem exists_first_occurrence (s : GoString) (c : UInt8) (h : c ∈ s) :
    ∃ pre post, s = pre ++ c :: post ∧ c ∉ pre := by
  induction s with
  | nil => simp at h
  | cons x xs ih =>
    by_cases hx : x = c
    · exact ⟨[], xs, by simp [hx], by simp⟩
    · have hxs : c ∈ xs := by
        rcases List.mem_cons.mp h with e | e
        · exact absurd e.symm hx
        · exact e
      obtain ⟨pre, post, e, hp⟩ := ih hxs
      refine ⟨x :: pre, post, by simp [e], ?_⟩
      intro hm
      rcases List.mem_cons.mp hm with e1 | e1
      · exact hx e1.symm
      · exact hp e1

theorem stringsIndex_eq_neg_one_iff (s : GoString) (c : UInt8) :
    stringsIndex s c = -1 ↔ c ∉ s := by
  constructor
  · intro h hm
    obtain ⟨pre, post, e, hp⟩ := exists_first_occurrence s c hm
    rw [e, stringsIndex_append pre post c hp] at h
    omega
  · exact stringsIndex_of_not_mem s c

/-! ### Indexing and slicing -/

theorem goIndex_last {α : Type} (l : List α) (x : α) (h : l.getLast? = some x) :
    goIndex l (goLen l - 1) = .ok x := by
  have hne : l ≠ [] := by
    intro e
    simp [e] at h
  have hpos : 0 < l.length := List.length_pos.mpr hne
  have h1 : ¬ (goLen l - 1 < 0) := by
    unfold goLen; omega
  have h2 : (goLen l - 1).toNat = l.length - 1 := by
    unfold goLen; omega
  have h3 : l.get? (l.length - 1) = some x := by
    rw [← h, List.getLast?_eq_getElem?]
    simp
  simp only [goIndex, if_neg h1, h2, h3]

theorem goSliceTo_dropLast {α : Type} (l : List α) (h : l ≠ []) :
    goSliceTo l (goLen l - 1) = .ok l.dropLast := by
  have hpos : 0 < l.length := List.length_pos.mpr h
  have h1 : ¬ (goLen l - 1 < 0 ∨ goLen l < goLen l - 1) := by
    unfold goLen; omega
  have h2 : (goLen l - 1).toNat = l.length - 1 := by
    unfold goLen; omega
  simp only [goSliceTo, if_neg h1, h2, List.dropLast_eq_take]

theorem goSliceTo_prefix {α : Type} (pre post : List α) :
    goSliceTo (pre ++ post) (pre.length : Int) = .ok pre := by
  have h1 : ¬ ((pre.length : Int) < 0 ∨ goLen (pre ++ post) < (pre.length : Int)) := by
    unfold goLen
    simp only [List.length_append]
    omega
  simp [goSliceTo, h1]

theorem goLen_eq_zero_iff {α : Type} (l : List α) : goLen l = 0 ↔ l = [] := by
  unfold goLen
  constructor
  · intro h
    exact List.length_eq_zero.mp (by omega)
  · intro h
    simp [h]

/-! ### `getLastPathRoute` and `getPathRoutes` -/

theorem getLastPathRoute_of_nil (p : GoString) (h : splitPathRoutes p = []) :
    getLastPathRoute p = .ok [] := by
  simp [getLastPathRoute, h, goLen]

theorem getLastPathRoute_of_no_query (p s : GoString)
    (h : (splitPathRoutes p).getLast? = some s) (hq : questionMark ∉ s) :
    getLastPathRoute p = .ok s := by
  have hne : ¬ goLen (splitPathRoutes p) = 0 := by
    rw [goLen_eq_zero_iff]
    intro e
    simp [e] at h
  simp only [getLastPathRoute, if_neg hne, goIndex_last _ s h, Except.bind,
    stringsIndex_of_not_mem s _ hq, if_true]

theorem getLastPathRoute_of_query (p pre post : GoString)
    (h : (splitPathRoutes p).getLast? = some (pre ++ questionMark :: post))
    (hq : questionMark ∉ pre) :
    getLastPathRoute p = .ok pre := by
  have hne : ¬ goLen (splitPathRoutes p) = 0 := by
    rw [goLen_eq_zero_iff]
    intro e
    simp [e] at h
  have hi : ¬ ((pre.length : Int) = -1) := by omega
  simp only [getLastPathRoute, if_neg hne, goIndex_last _ _ h, Except.bind,
    stringsIndex_append pre post _ hq, if_neg hi, goSliceTo_prefix]

theorem getLastPathRoute_cases (p : GoString) :
    (splitPathRoutes p = [] ∧ getLastPathRoute p = .ok []) ∨
    (∃ s, (splitPathRoutes p).getLast? = some s ∧ questionMark ∉ s ∧
      getLastPathRoute p = .ok s) ∨
    (∃ pre post, (splitPathRoutes p).getLast? = some (pre ++ questionMark :: post) ∧
      questionMark ∉ pre ∧ getLastPathRoute p = .ok pre) := by
  cases h : (splitPathRoutes p).getLast? with
  | none =>
    have e := List.getLast?_eq_none_iff.mp h
    exact Or.inl ⟨e, getLastPathRoute_of_nil p e⟩
  | some s =>
    by_cases hq : questionMark ∈ s
    · obtain ⟨pre, post, e, hp⟩ := exists_first_occurrence s _ hq
      subst e
      exact Or.inr (Or.inr ⟨pre, post, rfl, hp, getLastPathRoute_of_query p pre post h hp⟩)
    · exact Or.inr (Or.inl ⟨s, rfl, hq, getLastPathRoute_of_no_query p s h hq⟩)

theorem getLastPathRoute_total (p : GoString) : ∃ r, getLastPathRoute p = .ok r := by
  rcases getLastPathRoute_cases p with ⟨_, h⟩ | ⟨s, _, _, h⟩ | ⟨pre, _, _, _, h⟩
  · exact ⟨_, h⟩
  · exact ⟨_, h⟩
  · exact ⟨_, h⟩

theorem getLastPathRoute_no_query (p r : GoString) (h : getLastPathRoute p = .ok r) :
    questionMark ∉ r := by
  rcases getLastPathRoute_cases p with ⟨_, h1⟩ | ⟨s, _, hq, h1⟩ | ⟨pre, _, _, hq, h1⟩
  · rw [h1] at h
    injection h with e
    subst e
    simp
  · rw [h1] at h
    injection h with e
    subst e
    exact hq
  · rw [h1] at h
    injection h with e
    subst e
    exact hq

theorem getPathRoutes_of_nil (p : GoString) (h : splitPathRoutes p = []) :
    getPathRoutes p = .ok [] := by
  simp [getPathRoutes, h, goLen]

theorem getPathRoutes_of_ne_nil (p r : GoString) (h : splitPathRoutes p ≠ [])
    (hr : getLastPathRoute p = .ok r) :
    getPathRoutes p = .ok ((splitPathRoutes p).dropLast ++ [r]) := by
  have hne : ¬ goLen (splitPathRoutes p) = 0 := by
    rw [goLen_eq_zero_iff]
    exact h
  simp only [getPathRoutes, if_neg hne, hr, Except.bind, goSliceTo_dropLast _ h]

/-! ## Path parsing: properties -/

/-- C1: for every path `p`, `splitPathRoutes p` contains no empty-string element. -/
theorem splitPathRoutes_no_empty (p : GoString) : ∀ s ∈ splitPathRoutes p, s ≠ [] := by
  intro s hs e
  exact splitPathRoutes_not_mem_nil p (e ▸ hs)

theorem splitPathRoutes_no_empty_witness :
    str "b" ∈ splitPathRoutes (str "/a//b/") ∧ str "b" ≠ [] :=
  ⟨by decide, splitPathRoutes_no_empty (str "/a//b/") (str "b") (by decide)⟩

/-- C2: round trip of `splitPathRoutes`. For every list `xs` of strings that are non-empty and
contain no `'/'`, splitting the elements of `xs` joined with `"/"` gives back exactly `xs`,
also when a `"/"` is prepended, appended, or both. Concretely `"/a/b/c"` splits into
`["a","b","c"]`, `"a/b/"` into `["a","b"]` and `""` into `[]`. -/
theorem splitPathRoutes_roundtrip :
    (∀ xs : List GoString, (∀ x ∈ xs, x ≠ [] ∧ slash ∉ x) →
      splitPathRoutes (List.intercalate [slash] xs) = xs ∧
      splitPathRoutes ([slash] ++ List.intercalate [slash] xs) = xs ∧
      splitPathRoutes (List.intercalate [slash] xs ++ [slash]) = xs ∧
      splitPathRoutes ([slash] ++ List.intercalate [slash] xs ++ [slash]) = xs) ∧
    splitPathRoutes (str "/a/b/c") = [str "a", str "b", str "c"] ∧
    splitPathRoutes (str "a/b/") = [str "a", str "b"] ∧
    splitPathRoutes (str "") = [] := by
  refine ⟨?_, by decide, by decide, by decide⟩
  intro xs h
  have e := splitPathRoutes_intercalate xs h
  refine ⟨e, ?_, ?_, ?_⟩
  · rw [List.singleton_append, splitPathRoutes_cons_slash, e]
  · rw [splitPathRoutes_append_slash, e]
  · rw [splitPathRoutes_append_slash, List.singleton_append, splitPathRoutes_cons_slash, e]

theorem splitPathRoutes_roundtrip_witness :
    splitPathRoutes (List.intercalate [slash] [str "users", str "42"]) = [str "users", str "42"] ∧
    splitPathRoutes ([slash] ++ List.intercalate [slash] [str "users", str "42"] ++ [slash])
      = [str "users", str "42"] :=
  ⟨(splitPathRoutes_roundtrip.1 [str "users", str "42"] (by decide)).1,
   (splitPathRoutes_roundtrip.1 [str "users", str "42"] (by decide)).2.2.2⟩

/-- C3: for every path `p`, `getLastPathRoute p` returns the empty string when
`splitPathRoutes p` is empty; otherwise, with `s` the last element of `splitPathRoutes p`, it
returns `s` itself when `s` contains no `'?'`, and the prefix of `s` that ends just before the
first `'?'` when `s` contains one. Concretely it maps `"a/b?x=1"` to `"b"`, `"a/b"` to `"b"` and
`""` to `""`. -/
theorem getLastPathRoute_spec :
    (∀ p : GoString,
      (splitPathRoutes p = [] → getLastPathRoute p = .ok []) ∧
      (∀ s, (splitPathRoutes p).getLast? = some s →
        (questionMark ∉ s → getLastPathRoute p = .ok s) ∧
        (questionMark ∈ s → ∃ pre post, s = pre ++ questionMark :: post ∧
          questionMark ∉ pre ∧ getLastPathRoute p = .ok pre))) ∧
    getLastPathRoute (str "a/b?x=1") = .ok (str "b") ∧
    getLastPathRoute (str "a/b") = .ok (str "b") ∧
    getLastPathRoute (str "") = .ok (str "") := by
  refine ⟨?_, by decide, by decide, by decide⟩
  intro p
  refine ⟨getLastPathRoute_of_nil p, ?_⟩
  intro s hs
  refine ⟨getLastPathRoute_of_no_query p s hs, ?_⟩
  intro hq
  obtain ⟨pre, post, e, hp⟩ := exists_first_occurrence s _ hq
  exact ⟨pre, post, e, hp, getLastPathRoute_of_query p pre post (e ▸ hs) hp⟩

theorem getLastPathRoute_spec_witness :
    (splitPathRoutes (str "/users/list?page=2")).getLast? = some (str "list?page=2") ∧
    questionMark ∈ str "list?page=2" ∧
    ∃ pre post, str "list?page=2" = pre ++ questionMark :: post ∧
      questionMark ∉ pre ∧ getLastPathRoute (str "/users/list?page=2") = .ok pre :=
  ⟨by decide, by decide,
   ((getLastPathRoute_spec.1 (str "/users/list?page=2")).2 (str "list?page=2")
      (by decide)).2 (by decide)⟩

/-- C4: for every path `p`, `getPathRoutes p` returns a list of the same length as
`splitPathRoutes p`; it is empty when `splitPathRoutes p` is empty; otherwise it agrees with
`splitPathRoutes p` at every index except the last, and its last element is the value of
`getLastPathRoute p`. -/
theorem getPathRoutes_spec (p : GoString) :
    ∃ rs, getPathRoutes p = .ok rs ∧
      rs.length = (splitPathRoutes p).length ∧
      (splitPathRoutes p = [] → rs = []) ∧
      (splitPathRoutes p ≠ [] →
        (∀ i, i + 1 < rs.length → rs[i]? = (splitPathRoutes p)[i]?) ∧
        ∃ r, getLastPathRoute p = .ok r ∧ rs.getLast? = some r) := by
  by_cases h : splitPathRoutes p = []
  · exact ⟨[], getPathRoutes_of_nil p h, by simp [h], fun _ => rfl, fun hne => absurd h hne⟩
  · obtain ⟨r, hr⟩ := getLastPathRoute_total p
    have hpos : 0 < (splitPathRoutes p).length := List.length_pos.mpr h
    refine ⟨(splitPathRoutes p).dropLast ++ [r], getPathRoutes_of_ne_nil p r h hr, ?_,
      fun e => absurd e h, fun _ => ⟨?_, r, hr, by simp⟩⟩
    · simp only [List.length_append, List.length_dropLast, List.length_singleton]
      omega
    · intro i hi
      simp only [List.length_append, List.length_dropLast, List.length_singleton] at hi
      have hi2 : i < (splitPathRoutes p).dropLast.length := by
        simp only [List.length_dropLast]
        omega
      rw [List.getElem?_append_left hi2, List.dropLast_eq_take, List.getElem?_take]
      have hi3 : i < (splitPathRoutes p).length - 1 := by omega
      simp [hi3]

theorem getPathRoutes_spec_witness :
    splitPathRoutes (str "/a/b?x") ≠ [] ∧
    ∃ rs, getPathRoutes (str "/a/b?x") = .ok rs ∧ rs.length = 2 ∧
      rs[0]? = some (str "a") ∧ rs.getLast? = some (str "b") := by
  have e : splitPathRoutes (str "/a/b?x") = [str "a", str "b?x"] := by decide
  have hne : splitPathRoutes (str "/a/b?x") ≠ [] := by decide
  have hl : getLastPathRoute (str "/a/b?x") = .ok (str "b") := by decide
  obtain ⟨rs, h1, h2, _, h4⟩ := getPathRoutes_spec (str "/a/b?x")
  obtain ⟨h5, r, h6, h7⟩ := h4 hne
  rw [e] at h2
  rw [hl] at h6
  injection h6 with h6
  refine ⟨hne, rs, h1, h2, ?_, h6 ▸ h7⟩
  rw [h5 0 (by rw [h2]; decide), e]
  rfl

/-- C5: the route-segment invariant fails on the code. For the path `"/a/?x=1"` the last
split segment is `"?x=1"`, whose query-stripped prefix is empty, so `getPathRoutes` returns
`["a", ""]`, a sequence with an empty element; the same happens for `"?x=1"`, which gives
`[""]`. -/
theorem getPathRoutes_empty_element :
    getPathRoutes (str "/a/?x=1") = .ok [str "a", str ""] ∧
    getPathRoutes (str "?x=1") = .ok [str ""] ∧
    ¬ (∀ p rs, getPathRoutes p = .ok rs → ∀ s ∈ rs, s ≠ []) := by
  refine ⟨by decide, by decide, ?_⟩
  intro h
  exact h (str "/a/?x=1") [str "a", str ""] (by decide) (str "") (by decide) rfl

/-- C6: for every path `p`, `getPathRoutes p` returns a sequence whose last element, when
there is one, contains no `'?'`: the query string has been removed from the last segment. -/
theorem getPathRoutes_last_no_query (p : GoString) :
    ∃ rs, getPathRoutes p = .ok rs ∧ ∀ s, rs.getLast? = some s → questionMark ∉ s := by
  by_cases h : splitPathRoutes p = []
  · exact ⟨[], getPathRoutes_of_nil p h, by simp⟩
  · obtain ⟨r, hr⟩ := getLastPathRoute_total p
    refine ⟨(splitPathRoutes p).dropLast ++ [r], getPathRoutes_of_ne_nil p r h hr, ?_⟩
    intro s hs
    have e : r = s := by simpa using hs
    exact e ▸ getLastPathRoute_no_query p r hr

theorem getPathRoutes_last_no_query_witness :
    getPathRoutes (str "/a/b?x=1?y") = .ok [str "a", str "b"] ∧ questionMark ∉ str "b" := by
  have hv : getPathRoutes (str "/a/b?x=1?y") = .ok [str "a", str "b"] := by decide
  obtain ⟨rs, h1, h2⟩ := getPathRoutes_last_no_query (str "/a/b?x=1?y")
  rw [hv] at h1
  injection h1 with h1
  exact ⟨hv, h2 (str "b") (by rw [← h1]; rfl)⟩

/-- C7: the path parser never fails. For every input `p`, `getLastPathRoute p` and
`getPathRoutes p` return a value (`splitPathRoutes` is a total function that performs no
indexing or slicing), and the operations that could panic are in bounds whenever they are reached:
the index `routes[len(routes)-1]` and the slice `routes[:len(routes)-1]` when `routes` is
non-empty, and the slice `lastRoute[:queryIndex]` when `queryIndex` is not `-1`. -/
theorem pathParser_never_fails (p : GoString) :
    (∃ r, getLastPathRoute p = .ok r) ∧
    (∃ rs, getPathRoutes p = .ok rs) ∧
    (splitPathRoutes p ≠ [] →
      (∃ lastRoute, goIndex (splitPathRoutes p) (goLen (splitPathRoutes p) - 1) = .ok lastRoute ∧
        (stringsIndex lastRoute questionMark ≠ -1 →
          ∃ pre, goSliceTo lastRoute (stringsIndex lastRoute questionMark) = .ok pre)) ∧
      (∃ front, goSliceTo (splitPathRoutes p) (goLen (splitPathRoutes p) - 1) = .ok front)) := by
  refine ⟨getLastPathRoute_total p, ?_, ?_⟩
  · by_cases h : splitPathRoutes p = []
    · exact ⟨[], getPathRoutes_of_nil p h⟩
    · obtain ⟨r, hr⟩ := getLastPathRoute_total p
      exact ⟨_, getPathRoutes_of_ne_nil p r h hr⟩
  · intro h
    refine ⟨?_, _, goSliceTo_dropLast _ h⟩
    cases hl : (splitPathRoutes p).getLast? with
    | none => exact absurd (List.getLast?_eq_none_iff.mp hl) h
    | some s =>
      refine ⟨s, goIndex_last _ s hl, ?_⟩
      intro hq
      have hm : questionMark ∈ s := by
        by_contra hn
        exact hq ((stringsIndex_eq_neg_one_iff s _).mpr hn)
      obtain ⟨pre, post, e, hp⟩ := exists_first_occurrence s _ hm
      subst e
      rw [stringsIndex_append pre post _ hp]
      exact ⟨pre, goSliceTo_prefix pre _⟩

theorem pathParser_never_fails_witness :
    splitPathRoutes (str "/a/?x=1") ≠ [] ∧
    (∃ front, goSliceTo (splitPathRoutes (str "/a/?x=1"))
      (goLen (splitPathRoutes (str "/a/?x=1")) - 1) = .ok front) :=
  ⟨by decide, ((pathParser_never_fails (str "/a/?x=1")).2.2 (by decide)).2⟩

/-- C8: slashes produce no extra entries. For all strings `p` and `q`,
`splitPathRoutes (p ++ "/" ++ q) = splitPathRoutes p ++ splitPathRoutes q`; in particular a
leading or a trailing `"/"` does not change the result, and neither does replacing a `"/"` by
`"//"` anywhere in a path. -/
theorem splitPathRoutes_slashes (p q : GoString) :
    splitPathRoutes (p ++ [slash] ++ q) = splitPathRoutes p ++ splitPathRoutes q ∧
    splitPathRoutes ([slash] ++ p) = splitPathRoutes p ∧
    splitPathRoutes (p ++ [slash]) = splitPathRoutes p ∧
    splitPathRoutes (p ++ [slash, slash] ++ q) = splitPathRoutes (p ++ [slash] ++ q) := by
  have h1 : splitPathRoutes (p ++ [slash] ++ q) = splitPathRoutes p ++ splitPathRoutes q := by
    rw [List.append_assoc, List.singleton_append, splitPathRoutes_append]
  refine ⟨h1, ?_, splitPathRoutes_append_slash p, ?_⟩
  · rw [List.singleton_append, splitPathRoutes_cons_slash]
  · have e : p ++ [slash, slash] ++ q = p ++ slash :: (slash :: q) := by simp
    rw [h1, e, splitPathRoutes_append, splitPathRoutes_cons_slash]

/-! ## List helpers: properties -/

/-- C9: `intInList v l` is true if and only if `v` equals some element of `l`, and
`strInList s ls` is true if and only if `s` equals some element of `ls`; both are false for
the empty list. -/
theorem inList_iff (v : Int) (l : List Int) (s : GoString) (ls : List GoString) :
    (intInList v l = true ↔ ∃ x ∈ l, v = x) ∧
    (strInList s ls = true ↔ ∃ x ∈ ls, s = x) ∧
    intInList v [] = false ∧ strInList s [] = false := by
  refine ⟨?_, ?_, rfl, rfl⟩
  · induction l with
    | nil => simp [intInList]
    | cons x rest ih =>
      by_cases h : v = x
      · simp [intInList, h]
      · simp [intInList, h, ih]
  · induction ls with
    | nil => simp [strInList]
    | cons x rest ih =>
      by_cases h : s = x
      · simp [strInList, h]
      · simp [strInList, h, ih]

/-- C10: for every string list `l` and predicate `f`, `filterStrings l f` is the standard
list filter of `l` by `f`: a subsequence of `l` that contains exactly the elements of `l`
satisfying `f`, in their original relative order and with their multiplicities; for the empty
list it is the empty list. -/
theorem filterStrings_spec (l : List GoString) (f : GoString → Bool) :
    filterStrings l f = l.filter f ∧
    (filterStrings l f).Sublist l ∧
    (∀ v, v ∈ filterStrings l f ↔ v ∈ l ∧ f v = true) ∧
    (∀ v, (filterStrings l f).count v = if f v = true then l.count v else 0) ∧
    filterStrings [] f = [] := by
  rw [filterStrings_eq]
  refine ⟨rfl, List.filter_sublist l, fun v => List.mem_filter, ?_, rfl⟩
  intro v
  by_cases h : f v = true
  · rw [if_pos h, List.count_filter h]
  · rw [if_neg h]
    exact List.count_eq_zero.mpr (fun hm => h (List.mem_filter.mp hm).2)

/-! ## Further auxiliary lemmas -/

theorem goIndex_append_cons {α : Type} (pre : List α) (x : α) (post : List α) :
    goIndex (pre ++ x :: post) (pre.length : Int) = .ok x := by
  have h1 : ¬ ((pre.length : Int) < 0) := by omega
  have h2 : (pre ++ x :: post).get? pre.length = some x := by
    rw [List.get?_eq_getElem?, List.getElem?_append_right (Nat.le_refl _)]
    simp
  simp only [goIndex, if_neg h1, Int.toNat_ofNat, h2]

theorem goIndex_zero_cons {α : Type} (x : α) (rest : List α) :
    goIndex (x :: rest) 0 = .ok x := by
  simp [goIndex]

theorem str_quote : str "\"" = [quote] := by decide

theorem str_quote_comma : str "\", " = [quote, 44, 32] := by decide

theorem str_comma : str ", " = [44, 32] := by decide

theorem str_quote_close : str "\"]" = [quote, 93] := by decide

theorem str_open : str "[" = [91] := by decide

theorem str_close : str "]" = [93] := by decide

/-! ### `strListToStr` -/

theorem strListToStrLoop_eq (rest pre : List GoString) (last buffer : GoString) :
    strListToStrLoop (pre ++ (rest ++ [last])) rest.length (pre.length : Int) buffer
      = .ok (buffer ++ (rest.map fun v => quote :: v ++ [quote, 44, 32]).flatten) := by
  induction rest generalizing pre buffer with
  | nil => simp [strListToStrLoop]
  | cons x r ih =>
    have e : pre ++ (x :: r ++ [last]) = (pre ++ [x]) ++ (r ++ [last]) := by simp
    have hl : (pre.length : Int) + 1 = ((pre ++ [x]).length : Int) := by simp
    have hi : goIndex (pre ++ (x :: r ++ [last])) (pre.length : Int) = .ok x :=
      goIndex_append_cons pre x (r ++ [last])
    rw [List.length_cons, strListToStrLoop, hi]
    simp only [Except.bind]
    rw [hl, e, ih]
    simp [str_quote, str_quote_comma]

theorem intercalate_concat (sep : GoString) (xs : List GoString) (y : GoString) :
    List.intercalate sep (xs ++ [y]) = (xs.map fun v => v ++ sep).flatten ++ y := by
  induction xs with
  | nil => simp [List.intercalate]
  | cons x r ih =>
    cases r with
    | nil => simp [List.intercalate, List.intersperse]
    | cons z zs =>
      have e : List.intercalate sep (x :: (z :: zs ++ [y]))
          = x ++ sep ++ List.intercalate sep (z :: zs ++ [y]) := by
        simp [List.intercalate, List.intersperse]
      rw [List.cons_append, e, ih]
      simp

theorem strListToStr_concat (front : List GoString) (last : GoString) :
    strListToStr (front ++ [last])
      = .ok ([91] ++ (front.map fun v => quote :: v ++ [quote, 44, 32]).flatten
          ++ (quote :: last ++ [quote, 93])) := by
  have hne : ¬ goLen (front ++ [last]) = 0 := by
    rw [goLen_eq_zero_iff]
    simp
  have hn : (goLen (front ++ [last]) - 1).toNat = front.length := by
    simp [goLen]
  have hi : goIndex (front ++ [last]) (goLen (front ++ [last]) - 1) = .ok last :=
    goIndex_last _ last (by simp)
  have hloop := strListToStrLoop_eq front [] last (str "[")
  simp only [List.nil_append, List.length_nil, Nat.cast_zero] at hloop
  rw [strListToStr, if_neg hne, hn, hloop]
  simp only [Except.bind, hi]
  simp [str_quote, str_quote_close, str_open]

theorem strListToStr_eq (l : List GoString) :
    strListToStr l
      = .ok (str "[" ++ List.intercalate (str ", ") (l.map fun v => str "\"" ++ v ++ str "\"")
          ++ str "]") := by
  rcases List.eq_nil_or_concat l with h | ⟨front, last, h⟩
  · subst h
    decide
  · subst h
    rw [List.concat_eq_append, strListToStr_concat, List.map_append, List.map_singleton,
      intercalate_concat]
    simp [str_quote, str_comma, str_open, str_close, List.map_map, Function.comp_def]

/-! ### Consecutive double quotes -/

theorem adjacentQuotes_cons_ne (a : UInt8) (t : GoString) (h : a ≠ quote) :
    adjacentQuotes (a :: t) = adjacentQuotes t := by
  cases t with
  | nil => simp [adjacentQuotes]
  | cons b r => simp [adjacentQuotes, h]

theorem adjacentQuotes_append_of_not_mem (x t : GoString) (h : quote ∉ x) :
    adjacentQuotes (x ++ t) = adjacentQuotes t := by
  induction x with
  | nil => rfl
  | cons a r ih =>
    have ha : a ≠ quote := fun e => h (by simp [e])
    have hr : quote ∉ r := fun e => h (List.mem_cons_of_mem _ e)
    rw [List.cons_append, adjacentQuotes_cons_ne a _ ha, ih hr]

theorem adjacentQuotes_cons_cons (a b : UInt8) (rest : GoString) :
    adjacentQuotes (a :: b :: rest)
      = ((a == quote && b == quote) || adjacentQuotes (b :: rest)) := by
  rw [adjacentQuotes]

theorem adjacentQuotes_quote_cons_ne (b : UInt8) (t : GoString) (h : b ≠ quote) :
    adjacentQuotes (quote :: b :: t) = adjacentQuotes t := by
  have hb : (b == quote) = false := by simpa using h
  rw [adjacentQuotes_cons_cons, hb, Bool.and_false, Bool.false_or,
    adjacentQuotes_cons_ne b t h]

theorem adjacentQuotes_wrap (x t : GoString) (hne : x ≠ []) (h : quote ∉ x) :
    adjacentQuotes (quote :: x ++ quote :: t) = adjacentQuotes (quote :: t) := by
  cases x with
  | nil => exact absurd rfl hne
  | cons a r =>
    have ha : a ≠ quote := fun e => h (by simp [e])
    have hr : quote ∉ r := fun e => h (List.mem_cons_of_mem _ e)
    have e : quote :: (a :: r) ++ quote :: t = quote :: a :: (r ++ quote :: t) := rfl
    rw [e, adjacentQuotes_quote_cons_ne a _ ha, adjacentQuotes_append_of_not_mem r _ hr]

theorem adjacentQuotes_of_occurrence (s : GoString) (h : [quote, quote] <:+: s) :
    adjacentQuotes s = true := by
  obtain ⟨a, b, e⟩ := h
  subst e
  induction a with
  | nil =>
    have e : [] ++ [quote, quote] ++ b = quote :: quote :: b := rfl
    rw [e, adjacentQuotes_cons_cons]
    simp
  | cons c r ih =>
    cases r with
    | nil =>
      have e : [c] ++ [quote, quote] ++ b = c :: quote :: (quote :: b) := rfl
      rw [e, adjacentQuotes_cons_cons, adjacentQuotes_cons_cons]
      simp
    | cons d r2 =>
      have e : c :: d :: r2 ++ [quote, quote] ++ b = c :: d :: (r2 ++ [quote, quote] ++ b) := rfl
      have ih2 : adjacentQuotes (d :: (r2 ++ [quote, quote] ++ b)) = true := ih
      rw [e, adjacentQuotes_cons_cons, ih2]
      simp

theorem adjacentQuotes_items (front : List GoString) (t : GoString)
    (h : ∀ x ∈ front, x ≠ [] ∧ quote ∉ x) :
    adjacentQuotes ((front.map fun v => quote :: v ++ [quote, 44, 32]).flatten ++ t)
      = adjacentQuotes t := by
  induction front with
  | nil => rfl
  | cons x r ih =>
    have hx := h x (List.mem_cons_self _ _)
    have hr : ∀ y ∈ r, y ≠ [] ∧ quote ∉ y := fun y hy => h y (List.mem_cons_of_mem _ hy)
    have e : ((x :: r).map fun v => quote :: v ++ [quote, 44, 32]).flatten ++ t
        = quote :: x ++ quote :: (44 :: 32 ::
            ((r.map fun v => quote :: v ++ [quote, 44, 32]).flatten ++ t)) := by
      simp
    rw [e, adjacentQuotes_wrap x _ hx.1 hx.2, adjacentQuotes_quote_cons_ne 44 _ (by decide),
      adjacentQuotes_cons_ne 32 _ (by decide), ih hr]

theorem strListToStr_no_adjacentQuotes (xs : List GoString)
    (h : ∀ x ∈ xs, x ≠ [] ∧ quote ∉ x) :
    ∃ out, strListToStr xs = .ok out ∧ adjacentQuotes out = false := by
  rcases List.eq_nil_or_concat xs with e | ⟨front, last, e⟩
  · subst e
    exact ⟨str "[]", by decide, by decide⟩
  · subst e
    rw [List.concat_eq_append] at h ⊢
    refine ⟨_, strListToStr_concat front last, ?_⟩
    have hf : ∀ x ∈ front, x ≠ [] ∧ quote ∉ x :=
      fun x hx => h x (List.mem_append_left _ hx)
    have hl := h last (by simp)
    rw [List.append_assoc, adjacentQuotes_append_of_not_mem [91] _ (by decide),
      adjacentQuotes_items front _ hf]
    have e : quote :: last ++ [quote, 93] = quote :: last ++ quote :: [93] := rfl
    rw [e, adjacentQuotes_wrap last _ hl.1 hl.2]
    decide

theorem denullStrList_length (l : List GoString) :
    (denullStrList l).length + l.count [] = l.length := by
  rw [denullStrList_eq]
  induction l with
  | nil => rfl
  | cons x r ih =>
    by_cases hx : x = []
    · subst hx
      simp only [List.filter_cons, List.count_cons_self]
      simp
      omega
    · have h1 : (x != []) = true := by simpa using hx
      have h2 : List.count [] (x :: r) = List.count [] r := by
        rw [List.count_cons]
        have : (x == []) = false := by simpa using hx
        simp [this]
      rw [List.filter_cons, if_pos h1, h2, List.length_cons, List.length_cons]
      omega

/-! ### The last route of a path followed by a query -/

theorem takeWhile_first_occurrence (pre post : GoString) (c : UInt8) (h : c ∉ pre) :
    (pre ++ c :: post).takeWhile (fun b => b != c) = pre := by
  induction pre with
  | nil => simp [List.takeWhile]
  | cons a r ih =>
    have ha : a ≠ c := fun e => h (by simp [e])
    have hr : c ∉ r := fun e => h (List.mem_cons_of_mem _ e)
    have hb : (a != c) = true := by simpa using ha
    rw [List.cons_append, List.takeWhile_cons, hb, if_pos rfl, ih hr]

theorem takeWhile_of_not_mem (s : GoString) (c : UInt8) (h : c ∉ s) :
    s.takeWhile (fun b => b != c) = s := by
  induction s with
  | nil => rfl
  | cons a r ih =>
    have ha : a ≠ c := fun e => h (by simp [e])
    have hr : c ∉ r := fun e => h (List.mem_cons_of_mem _ e)
    have hb : (a != c) = true := by simpa using ha
    rw [List.takeWhile_cons, hb, if_pos rfl, ih hr]

theorem getLastPathRoute_of_last (p s : GoString)
    (h : (splitPathRoutes p).getLast? = some s) :
    getLastPathRoute p = .ok (s.takeWhile (fun b => b != questionMark)) := by
  by_cases hq : questionMark ∈ s
  · obtain ⟨pre, post, e, hp⟩ := exists_first_occurrence s _ hq
    subst e
    rw [takeWhile_first_occurrence pre post _ hp]
    exact getLastPathRoute_of_query p pre post h hp
  · rw [takeWhile_of_not_mem s _ hq]
    exact getLastPathRoute_of_no_query p s h hq

theorem exists_last_segment (p : GoString) :
    ∃ s, slash ∉ s ∧ (p = s ∨ ∃ a, p = a ++ slash :: s) := by
  induction p with
  | nil => exact ⟨[], by simp, Or.inl rfl⟩
  | cons c r ih =>
    obtain ⟨s, hs, h | ⟨a, h⟩⟩ := ih
    · by_cases hc : c = slash
      · exact ⟨s, hs, Or.inr ⟨[], by simp [hc, h]⟩⟩
      · refine ⟨c :: s, ?_, Or.inl (by rw [h])⟩
        intro hm
        rcases List.mem_cons.mp hm with e | e
        · exact hc e.symm
        · exact hs e
    · exact ⟨s, hs, Or.inr ⟨c :: a, by simp [h]⟩⟩

theorem getLastPathRoute_append_query (p q : GoString) (hp : p.getLast? ≠ some slash)
    (hq : slash ∉ q) :
    getLastPathRoute (p ++ [questionMark] ++ q) = getLastPathRoute p := by
  obtain ⟨s, hs, h | ⟨a, h⟩⟩ := exists_last_segment p
  · subst h
    have hfree : slash ∉ p ++ questionMark :: q := by
      intro hm
      rcases List.mem_append.mp hm with e | e
      · exact hs e
      · rcases List.mem_cons.mp e with e1 | e1
        · exact absurd e1 (by decide)
        · exact hq e1
    have h1 : splitPathRoutes (p ++ questionMark :: q) = [p ++ questionMark :: q] :=
      splitPathRoutes_single _ (by simp) hfree
    have e : p ++ [questionMark] ++ q = p ++ questionMark :: q := by simp
    rw [e, getLastPathRoute_of_last _ (p ++ questionMark :: q) (by rw [h1]; rfl)]
    by_cases hne : p = []
    · subst hne
      rw [getLastPathRoute_of_nil [] splitPathRoutes_nil]
      simp [List.takeWhile]
    · have h2 : splitPathRoutes p = [p] := splitPathRoutes_single p hne hs
      rw [getLastPathRoute_of_last p p (by rw [h2]; rfl)]
      by_cases hm : questionMark ∈ p
      · obtain ⟨pre, post, e2, hpre⟩ := exists_first_occurrence p _ hm
        subst e2
        have e3 : pre ++ questionMark :: post ++ questionMark :: q
            = pre ++ questionMark :: (post ++ questionMark :: q) := by simp
        rw [e3, takeWhile_first_occurrence pre _ _ hpre,
          takeWhile_first_occurrence pre _ _ hpre]
      · rw [takeWhile_first_occurrence p q _ hm, takeWhile_of_not_mem p _ hm]
  · subst h
    have hne : s ≠ [] := by
      intro e
      subst e
      exact hp (by simp)
    have hfree : slash ∉ s ++ questionMark :: q := by
      intro hm
      rcases List.mem_append.mp hm with e | e
      · exact hs e
      · rcases List.mem_cons.mp e with e1 | e1
        · exact absurd e1 (by decide)
        · exact hq e1
    have e : a ++ slash :: s ++ [questionMark] ++ q = a ++ slash :: (s ++ questionMark :: q) := by
      simp
    have h1 : (splitPathRoutes (a ++ slash :: (s ++ questionMark :: q))).getLast?
        = some (s ++ questionMark :: q) := by
      rw [splitPathRoutes_append, splitPathRoutes_single _ (by simp) hfree]
      simp
    have h2 : (splitPathRoutes (a ++ slash :: s)).getLast? = some s := by
      rw [splitPathRoutes_append, splitPathRoutes_single s hne hs]
      simp
    rw [e, getLastPathRoute_of_last _ _ h1, getLastPathRoute_of_last _ _ h2]
    by_cases hm : questionMark ∈ s
    · obtain ⟨pre, post, e2, hpre⟩ := exists_first_occurrence s _ hm
      subst e2
      have e3 : pre ++ questionMark :: post ++ questionMark :: q
          = pre ++ questionMark :: (post ++ questionMark :: q) := by simp
      rw [e3, takeWhile_first_occurrence pre _ _ hpre,
        takeWhile_first_occurrence pre _ _ hpre]
    · rw [takeWhile_first_occurrence s q _ hm, takeWhile_of_not_mem s _ hm]

/-! ## List helpers: further properties -/

/-- C11: `denullStrList` removes exactly the empty-string elements. For every string list `l`
the result is `l` filtered by `v != ""`, it contains no `""`, its length is the length of `l`
minus the number of `""` elements of `l`, it equals `l` when `l` contains no `""`, and
`denullStrList` is idempotent. -/
theorem denullStrList_spec (l : List GoString) :
    denullStrList l = l.filter (fun v => v != []) ∧
    ([] : GoString) ∉ denullStrList l ∧
    (denullStrList l).length = l.length - l.count [] ∧
    (([] : GoString) ∉ l → denullStrList l = l) ∧
    denullStrList (denullStrList l) = denullStrList l := by
  refine ⟨denullStrList_eq l, ?_, ?_, ?_, ?_⟩
  · simp [denullStrList_eq]
  · have h := denullStrList_length l
    omega
  · intro h
    rw [denullStrList_eq, List.filter_eq_self]
    intro a ha
    have : a ≠ [] := fun e => h (e ▸ ha)
    simpa using this
  · rw [denullStrList_eq, denullStrList_eq, List.filter_filter]
    simp

theorem denullStrList_spec_witness :
    ([] : GoString) ∉ [str "a", str "b"] ∧ denullStrList [str "a", str "b"] = [str "a", str "b"] :=
  ⟨by decide, (denullStrList_spec [str "a", str "b"]).2.2.2.1 (by decide)⟩

/-- C12: for every string list `l`, `strListToStr l` returns `"["`, followed by the elements
of `l`, each wrapped in double quotes, joined by the separator `", "`, followed by `"]"`; so
the empty list gives `"[]"` and `["a","b"]` gives `["a", "b"]`. -/
theorem strListToStr_spec :
    (∀ l : List GoString, strListToStr l
      = .ok (str "[" ++ List.intercalate (str ", ") (l.map fun v => str "\"" ++ v ++ str "\"")
          ++ str "]")) ∧
    strListToStr [] = .ok (str "[]") ∧
    strListToStr [str "a", str "b"] = .ok (str "[\"a\", \"b\"]") :=
  ⟨strListToStr_eq, by decide, by decide⟩

/-- C13, as stated, fails: the element `"\""` (one double-quote character) is not empty, so
`denullStrList` keeps it, and `strListToStr` renders the list as `["""]`, in which two
consecutive double quotes occur. -/
theorem strListToStr_denull_adjacent_quotes :
    strListToStr (denullStrList [str "\""]) = .ok (str "[\"\"\"]") ∧
    [quote, quote] <:+: str "[\"\"\"]" ∧
    ¬ (∀ l out, strListToStr (denullStrList l) = .ok out → ¬ ([quote, quote] <:+: out)) := by
  have h1 : strListToStr (denullStrList [str "\""]) = .ok (str "[\"\"\"]") := by decide
  have h2 : [quote, quote] <:+: str "[\"\"\"]" := ⟨[91], [quote, 93], by decide⟩
  exact ⟨h1, h2, fun h => h _ _ h1 h2⟩

/-- C13, amended: for every list of strings `l` none of which contains a double-quote
character, `strListToStr (denullStrList l)` returns a string in which two consecutive
double-quote characters occur nowhere. -/
theorem strListToStr_denull_no_adjacent_quotes (l : List GoString)
    (h : ∀ x ∈ l, quote ∉ x) :
    ∃ out, strListToStr (denullStrList l) = .ok out ∧ ¬ ([quote, quote] <:+: out) := by
  have hx : ∀ x ∈ denullStrList l, x ≠ [] ∧ quote ∉ x := by
    intro x hm
    rw [denullStrList_eq, List.mem_filter] at hm
    exact ⟨by simpa using hm.2, h x hm.1⟩
  obtain ⟨out, h1, h2⟩ := strListToStr_no_adjacentQuotes (denullStrList l) hx
  refine ⟨out, h1, fun hi => ?_⟩
  rw [adjacentQuotes_of_occurrence out hi] at h2
  exact Bool.noConfusion h2

theorem strListToStr_denull_no_adjacent_quotes_witness :
    (∀ x ∈ [str "a", str "", str "b"], quote ∉ x) ∧
    ∃ out, strListToStr (denullStrList [str "a", str "", str "b"]) = .ok out ∧
      ¬ ([quote, quote] <:+: out) :=
  ⟨by decide, strListToStr_denull_no_adjacent_quotes [str "a", str "", str "b"] (by decide)⟩

/-- C18: `firstOrDefault` returns the empty string for the empty list and the first element
for a non-empty list; it returns a value for every list, so its index is never out of
range. -/
theorem firstOrDefault_spec :
    firstOrDefault [] = .ok [] ∧
    (∀ (x : GoString) (rest : List GoString), firstOrDefault (x :: rest) = .ok x) ∧
    (∀ l, ∃ r, firstOrDefault l = .ok r) := by
  have h2 : ∀ (x : GoString) (rest : List GoString), firstOrDefault (x :: rest) = .ok x := by
    intro x rest
    have hne : ¬ goLen (x :: rest) = 0 := by
      rw [goLen_eq_zero_iff]
      simp
    rw [firstOrDefault, if_neg hne, goIndex_zero_cons]
  refine ⟨by decide, h2, ?_⟩
  intro l
  cases l with
  | nil => exact ⟨[], by decide⟩
  | cons x rest => exact ⟨x, h2 x rest⟩

/-! ## Path parsing: further properties -/

/-- C19: appending a query does not change the last route. For every path `p` that does not
end in `'/'` and every string `q` that contains no `'/'`,
`getLastPathRoute (p ++ "?" ++ q) = getLastPathRoute p`; in particular `"a/b?x=1"` and `"a/b"`
both give `"b"`. -/
theorem getLastPathRoute_query_invariant :
    (∀ p q : GoString, p.getLast? ≠ some slash → slash ∉ q →
      getLastPathRoute (p ++ [questionMark] ++ q) = getLastPathRoute p) ∧
    getLastPathRoute (str "a/b?x=1") = getLastPathRoute (str "a/b") ∧
    getLastPathRoute (str "a/b") = .ok (str "b") :=
  ⟨getLastPathRoute_append_query, by decide, by decide⟩

theorem getLastPathRoute_query_invariant_witness :
    (str "/users/list").getLast? ≠ some slash ∧ slash ∉ str "page=2" ∧
    getLastPathRoute (str "/users/list" ++ [questionMark] ++ str "page=2")
      = getLastPathRoute (str "/users/list") :=
  ⟨by decide, by decide,
   getLastPathRoute_query_invariant.1 (str "/users/list") (str "page=2") (by decide) (by decide)⟩

/-- C20: `removeLeadingSlash` removes the leading slash if there is one and nothing else. For
every string `s`, `removeLeadingSlash ("/" ++ s)` returns `s`; for every string `s` that is
empty or whose first byte is not `'/'`, `removeLeadingSlash s` returns `s`; so exactly one
leading slash is removed (`"//a"` gives `"/a"`), and the empty string is returned without an
out-of-range access. -/
theorem removeLeadingSlash_spec :
    (∀ s : GoString, removeLeadingSlash ([slash] ++ s) = .ok s) ∧
    (∀ s : GoString, (s = [] ∨ ∃ c rest, s = c :: rest ∧ c ≠ slash) →
      removeLeadingSlash s = .ok s) ∧
    removeLeadingSlash (str "//a") = .ok (str "/a") ∧
    removeLeadingSlash (str "") = .ok (str "") := by
  refine ⟨?_, ?_, by decide, by decide⟩
  · intro s
    have hne : ¬ goLen (slash :: s) = 0 := by
      rw [goLen_eq_zero_iff]
      simp
    have hb : ¬ ((1 : Int) < 0 ∨ goLen (slash :: s) < 1) := by
      simp only [goLen, List.length_cons]
      omega
    rw [List.singleton_append, removeLeadingSlash, if_neg hne, goIndex_zero_cons]
    simp only [Except.bind, if_true, goSliceFrom, if_neg hb]
    rfl
  · intro s h
    rcases h with h | ⟨c, rest, h, hc⟩
    · subst h
      decide
    · subst h
      have hne : ¬ goLen (c :: rest) = 0 := by
        rw [goLen_eq_zero_iff]
        simp
      rw [removeLeadingSlash, if_neg hne, goIndex_zero_cons]
      simp only [Except.bind, if_neg hc]

theorem removeLeadingSlash_spec_witness :
    (str "a/b" = [] ∨ ∃ c rest, str "a/b" = c :: rest ∧ c ≠ slash) ∧
    removeLeadingSlash (str "a/b") = .ok (str "a/b") :=
  ⟨Or.inr ⟨97, str "/b", by decide, by decide⟩,
   removeLeadingSlash_spec.2.1 (str "a/b") (Or.inr ⟨97, str "/b", by decide, by decide⟩)⟩

/-! ## Page rendering: properties -/

/-- C14, as stated, fails: when the template file cannot be found, `template.Must` panics with
the error of `template.ParseFiles`, so `makeHtml` does not return an error to its caller. -/
theorem makeHtml_panics_on_missing_template :
    makeHtml noTemplates (str "index.template") (.value ())
      = .error (.must (str "open: no such file or directory")) ∧
    ¬ ∃ err, makeHtml noTemplates (str "index.template") (.value ()) = .ok ([], some err) := by
  have h : makeHtml noTemplates (str "index.template") (.value ())
      = .error (.must (str "open: no such file or directory")) := rfl
  refine ⟨h, ?_⟩
  rintro ⟨err, he⟩
  rw [h] at he
  exact Except.noConfusion he

/-- C14, amended: when executing the template against `data` fails, `makeHtml` returns the
empty string together with that error and does not panic; when the template at
`templateLocation` cannot be located or parsed, `makeHtml` panics with the parse error
(through `template.Must`) instead of returning it. -/
theorem makeHtml_spec {τ δ ε : Type} (lib : TemplateEngine τ δ ε) (templateLocation : GoString)
    (data : TemplateData δ) :
    (∀ t out err, lib.parseFiles templateLocation = .ok t →
      lib.execute t data = (out, some err) →
      makeHtml lib templateLocation data = .ok ([], some err)) ∧
    (∀ err, lib.parseFiles templateLocation = .error err →
      makeHtml lib templateLocation data = .error (.must err)) := by
  constructor
  · intro t out err hp he
    simp only [makeHtml, hp, templateMust, Except.bind, he]
  · intro err hp
    simp only [makeHtml, hp, templateMust, Except.bind]

theorem makeHtml_spec_witness :
    echoTemplates.parseFiles (str "bad.template") = .ok (str "bad.template") ∧
    echoTemplates.execute (str "bad.template") (.value ()) = (str "par", some (str "exec")) ∧
    makeHtml echoTemplates (str "bad.template") (.value ()) = .ok ([], some (str "exec")) ∧
    noTemplates.parseFiles (str "bad.template") = .error (str "open: no such file or directory") ∧
    makeHtml noTemplates (str "bad.template") (.value ())
      = .error (.must (str "open: no such file or directory")) :=
  ⟨rfl, by decide,
   (makeHtml_spec echoTemplates (str "bad.template") (.value ())).1 (str "bad.template")
     (str "par") (str "exec") rfl (by decide),
   rfl,
   (makeHtml_spec noTemplates (str "bad.template") (.value ())).2 _ rfl⟩

/-- C16, as stated, fails: the header template parses and is executed without error, and the
body render fails because the body template cannot be found; `makeHtmlWithHeader` then panics
through `template.Must` in `makeHtml`, so no error, and no empty string, is returned. -/
theorem makeHtmlWithHeader_panics_on_missing_body :
    bodyMissing.parseFiles (str "../templates/header.template")
      = .ok (str "../templates/header.template") ∧
    bodyMissing.execute (str "../templates/header.template")
      (.headerData (makeHtmlWithHeader_headerData anonymous)) = (str "<h>", none) ∧
    bodyMissing.parseFiles (str "missing.template") = .error (str "open") ∧
    makeHtmlWithHeader bodyMissing anonymous (str "missing.template") (.value ())
      = .error (.must (str "open")) ∧
    ¬ ∃ err, makeHtmlWithHeader bodyMissing anonymous (str "missing.template") (.value ())
      = .ok ([], some err) := by
  have h : makeHtmlWithHeader bodyMissing anonymous (str "missing.template") (.value ())
      = .error (.must (str "open")) := by decide
  refine ⟨by decide, by decide, by decide, h, ?_⟩
  rintro ⟨err, he⟩
  rw [h] at he
  exact Except.noConfusion he

/-- C16, amended: `makeHtmlWithHeader`. When the header template cannot be located or parsed,
it panics with the parse error (through `template.Must`). Once the header template has been
parsed: when executing the header and rendering the body both succeed, the result is the
header output followed immediately by the body output, with no error; when executing the
header fails, that error is returned with the empty string, whatever the body template is, so
the body is not rendered; when the header succeeds and rendering the body returns an error
(executing the body template fails), that error is returned with the empty string; when the
header succeeds and the body template cannot be located or parsed, it panics with the parse
error instead of returning it. -/
theorem makeHtmlWithHeader_spec {τ δ ι ε : Type} (lib : TemplateEngine τ δ ε)
    (ctx : RequestContext ι ε) :
    (∀ err, lib.parseFiles (str "../templates/header.template") = .error err →
      ∀ templateLocation data,
        makeHtmlWithHeader lib ctx templateLocation data = .error (.must err)) ∧
    (∀ t, lib.parseFiles (str "../templates/header.template") = .ok t →
      (∀ templateLocation data header body,
        lib.execute t (.headerData (makeHtmlWithHeader_headerData ctx)) = (header, none) →
        makeHtml lib templateLocation data = .ok (body, none) →
        makeHtmlWithHeader lib ctx templateLocation data = .ok (header ++ body, none)) ∧
      (∀ header err,
        lib.execute t (.headerData (makeHtmlWithHeader_headerData ctx)) = (header, some err) →
        ∀ templateLocation data,
          makeHtmlWithHeader lib ctx templateLocation data = .ok ([], some err)) ∧
      (∀ templateLocation data header body err,
        lib.execute t (.headerData (makeHtmlWithHeader_headerData ctx)) = (header, none) →
        makeHtml lib templateLocation data = .ok (body, some err) →
        makeHtmlWithHeader lib ctx templateLocation data = .ok ([], some err)) ∧
      (∀ templateLocation data header tb out err,
        lib.execute t (.headerData (makeHtmlWithHeader_headerData ctx)) = (header, none) →
        lib.parseFiles templateLocation = .ok tb →
        lib.execute tb data = (out, some err) →
        makeHtmlWithHeader lib ctx templateLocation data = .ok ([], some err)) ∧
      (∀ templateLocation data header err,
        lib.execute t (.headerData (makeHtmlWithHeader_headerData ctx)) = (header, none) →
        lib.parseFiles templateLocation = .error err →
        makeHtmlWithHeader lib ctx templateLocation data = .error (.must err))) := by
  refine ⟨?_, ?_⟩
  · intro err hparse templateLocation data
    simp only [makeHtmlWithHeader, hparse, templateMust, Except.bind]
  · intro t hparse
    refine ⟨?_, ?_, ?_, ?_, ?_⟩
    · intro templateLocation data header body hh hb
      simp only [makeHtmlWithHeader, hparse, templateMust, Except.bind, hh, hb]
    · intro header err hh templateLocation data
      simp only [makeHtmlWithHeader, hparse, templateMust, Except.bind, hh]
    · intro templateLocation data header body err hh hb
      simp only [makeHtmlWithHeader, hparse, templateMust, Except.bind, hh, hb]
    · intro templateLocation data header tb out err hh hp he
      simp only [makeHtmlWithHeader, makeHtml, hparse, templateMust, Except.bind, hh, hp, he]
    · intro templateLocation data header err hh hp
      simp only [makeHtmlWithHeader, makeHtml, hparse, templateMust, Except.bind, hh, hp]

theorem makeHtmlWithHeader_spec_witness :
    makeHtmlWithHeader noTemplates anonymous (str "home.template") (.value ())
      = .error (.must (str "open: no such file or directory")) ∧
    makeHtmlWithHeader echoTemplates loggedInAnn (str "home.template") (.value ())
      = .ok (str "<in>ann" ++ str "home.template", none) ∧
    makeHtmlWithHeader headerFails anonymous (str "missing.template") (.value ())
      = .ok ([], some (str "no field")) ∧
    makeHtml headerFails (str "missing.template") (.value ()) = .error (.must (str "open")) ∧
    makeHtmlWithHeader echoTemplates anonymous (str "bad.template") (.value ())
      = .ok ([], some (str "exec")) ∧
    makeHtmlWithHeader echoTemplates anonymous (str "bad.template") (.value ())
      = .ok ([], some (str "exec")) ∧
    makeHtmlWithHeader bodyMissing loggedInAnn (str "missing.template") (.value ())
      = .error (.must (str "open")) :=
  ⟨(makeHtmlWithHeader_spec noTemplates anonymous).1 (str "open: no such file or directory")
      rfl (str "home.template") (.value ()),
   ((makeHtmlWithHeader_spec echoTemplates loggedInAnn).2 (str "../templates/header.template")
      rfl).1 (str "home.template") (.value ()) (str "<in>ann") (str "home.template")
      (by decide) (by decide),
   ((makeHtmlWithHeader_spec headerFails anonymous).2 (str "../templates/header.template")
      (by decide)).2.1 (str "<head") (str "no field") (by decide)
      (str "missing.template") (.value ()),
   by decide,
   ((makeHtmlWithHeader_spec echoTemplates anonymous).2 (str "../templates/header.template")
      rfl).2.2.1 (str "bad.template") (.value ()) (str "<out>") [] (str "exec")
      (by decide) (by decide),
   ((makeHtmlWithHeader_spec echoTemplates anonymous).2 (str "../templates/header.template")
      rfl).2.2.2.1 (str "bad.template") (.value ()) (str "<out>") (str "bad.template")
      (str "par") (str "exec") (by decide) rfl (by decide),
   ((makeHtmlWithHeader_spec bodyMissing loggedInAnn).2 (str "../templates/header.template")
      (by decide)).2.2.2.2 (str "missing.template") (.value ()) (str "<h>") (str "open")
      (by decide) (by decide)⟩

end ExpenseTracker
